import Mathlib

/-!
Shallow embedding of the geodetic projection and ground-track components of a
satellite tracking program (`orbital_propagation.py` and `ground_track_viz.py`).

The discrete parts (epoch grid generation, skip-on-error propagation loop,
track segmentation, orbit slicing) are embedded over `ℚ`-valued times and
longitudes; the coordinate transform (which uses `atan2`, `sqrt` and `π`) is
embedded over `ℝ`.  Python exceptions are modelled with `Except String`.
-/

namespace OrbitalMech

/-- Truncation toward zero: the semantics of Python's `int(...)` applied to a
real-valued quotient, here modelled on `ℚ`. -/
def pyInt (q : ℚ) : ℤ := if 0 ≤ q then ⌊q⌋ else -⌊-q⌋

/-- Embedding of `num_steps = int((duration_hours * 60) / time_step_minutes)`
from `OrbitalPropagator.propagate_multiple` (orbital_propagation.py line 83).
Python raises `ZeroDivisionError` when `time_step_minutes` is zero, before the
propagation loop runs. -/
def numStepsE (durationHours stepMinutes : ℚ) : Except String ℤ :=
  if stepMinutes = 0 then Except.error "ZeroDivisionError"
  else Except.ok (pyInt (durationHours * 60 / stepMinutes))

/-- Embedding of the target-epoch grid `start + i*step` for
`i in range(num_steps + 1)` (orbital_propagation.py lines 85-87).  Times are
minutes since a reference instant; Python's `range` of a non-positive bound is
empty, which `Int.toNat` captures. -/
def epochListOf (start stepMinutes : ℚ) (numSteps : ℤ) : List ℚ :=
  (List.range (numSteps + 1).toNat).map (fun (i : ℕ) => start + (i : ℚ) * stepMinutes)

/-- Embedding of the body of the propagation loop (orbital_propagation.py
lines 85-108): for each target epoch the external propagator is invoked; a
non-zero error code makes the loop `continue` (the sample is skipped),
otherwise a sample tagged with its epoch is appended.  The external propagator
is abstracted as `prop : ℚ → ℤ × α` returning an error code and a payload. -/
def runLoop {α : Type} (prop : ℚ → ℤ × α) : List ℚ → List (ℚ × α)
  | [] => []
  | e :: es =>
    if (prop e).1 != 0 then runLoop prop es
    else (e, (prop e).2) :: runLoop prop es

/-- Embedding of `OrbitalPropagator.propagate_multiple` (orbital_propagation.py
lines 67-110): compute the step count (raising on a zero step), build the
epoch grid, run the skip-on-error loop. -/
def propagateMultipleE {α : Type} (prop : ℚ → ℤ × α)
    (start durationHours stepMinutes : ℚ) : Except String (List (ℚ × α)) :=
  (numStepsE durationHours stepMinutes).map
    (fun n => runLoop prop (epochListOf start stepMinutes n))

/-- Embedding of `OrbitalPropagator.get_current_position` (orbital_propagation.py
lines 173-184): calls `propagate_multiple` with `duration_hours=0` and
`time_step_minutes=0`, then returns `results[0] if results else None`. -/
def getCurrentPosition {α : Type} (prop : ℚ → ℤ × α) (now : ℚ) :
    Except String (Option (ℚ × α)) :=
  (propagateMultipleE prop now 0 0).map (fun results => results.head?)

/-- Embedding of the segment-building walk of
`GroundTrackVisualizer._plot_track_segments` (ground_track_viz.py lines
165-192): `prevLon` is the previous sample's longitude, `cur` the open
segment (always non-empty), `rest` the samples still to process.  A jump with
`abs(lons[i] - lons[i-1]) > 180` closes the current segment and opens a new
one at sample `i`.  Points are (longitude, latitude) pairs. -/
def segmentsAux (prevLon : ℚ) (cur : List (ℚ × ℚ)) :
    List (ℚ × ℚ) → List (List (ℚ × ℚ))
  | [] => [cur]
  | p :: rest =>
    if |p.1 - prevLon| > 180 then
      cur :: segmentsAux p.1 [p] rest
    else
      segmentsAux p.1 (cur ++ [p]) rest

/-- Embedding of `GroundTrackVisualizer._plot_track_segments` as a function
from the sample points to the list of emitted track segments (ground_track_viz.py
lines 158-192).  An empty input yields no segments (the trailing
`if current_seg_lons` guard fails). -/
def segmentTrack : List (ℚ × ℚ) → List (List (ℚ × ℚ))
  | [] => []
  | p :: rest => segmentsAux p.1 [p] rest

/-- Embedding of `time_step = duration / len(results)` with
`duration = (results[-1].time - results[0].time)` in minutes
(ground_track_viz.py lines 233-234).  Samples are represented by their times
in minutes. -/
def codeTimeStep (times : List ℚ) : ℚ :=
  (times.getLast?.getD 0 - times.head?.getD 0) / (times.length : ℚ)

/-- Embedding of the `points_per_orbit` computation of
`GroundTrackVisualizer.plot_multiple_orbits` (ground_track_viz.py lines
232-237): `int(90 / time_step)` when at least one sample exists (Python raises
`ZeroDivisionError` when `time_step` is zero, e.g. for a single sample),
otherwise `len(results) // num_orbits` (raising when `num_orbits` is zero). -/
def codePpoE (times : List ℚ) (numOrbits : ℕ) : Except String ℤ :=
  if 0 < times.length then
    if codeTimeStep times = 0 then Except.error "ZeroDivisionError"
    else Except.ok (pyInt (90 / codeTimeStep times))
  else if numOrbits = 0 then Except.error "ZeroDivisionError"
  else Except.ok (Int.fdiv (times.length : ℤ) (numOrbits : ℤ))

/-- Embedding of the slice loop of `GroundTrackVisualizer.plot_multiple_orbits`
(ground_track_viz.py lines 242-256): at slice index `k`, `start = k*ppo`,
`end = (k+1)*ppo`; the loop `break`s when `end > len(results)`, otherwise it
emits `results[start:end]` and continues.  `budget` is the number of loop
iterations remaining. -/
def slicesAux {α : Type} (results : List α) (ppo : ℕ) : ℕ → ℕ → List (List α)
  | _, 0 => []
  | k, budget + 1 =>
    if results.length < (k + 1) * ppo then []
    else ((results.drop (k * ppo)).take ppo) :: slicesAux results ppo (k + 1) budget

/-- Embedding of the orbit partitioning of
`GroundTrackVisualizer.plot_multiple_orbits`: the loop runs over
`range(min(num_orbits, len(colors)))` with 5 colors available
(ground_track_viz.py lines 240-242). -/
def orbitSlices {α : Type} (results : List α) (numOrbits ppo : ℕ) : List (List α) :=
  slicesAux results ppo 0 (min numOrbits 5)

/-- Sample-time grid with a 5-minute spacing: sample `i` at `i*5` minutes. -/
def times5 (n : ℕ) : List ℚ :=
  (List.range n).map (fun (i : ℕ) => (i : ℚ) * 5)

noncomputable section

/-- Embedding of `math.atan2(y, x)`: the argument of the complex number
`x + y*I`, which lies in `(-π, π]` and is `0` at the origin, matching
`atan2`'s conventions. -/
def atan2 (y x : ℝ) : ℝ := Complex.arg ⟨x, y⟩

/-- Earth rotation rate in rad/s (orbital_propagation.py line 130). -/
def omega_earth : ℝ := 7.2921159e-5

/-- Sidereal angle at the J2000.0 reference epoch in radians
(orbital_propagation.py line 136). -/
def theta0 : ℝ := 4.894961212823756

/-- Python's float `%` for a positive modulus: `a - b * floor(a / b)`,
which lies in `[0, b)` when `0 < b`. -/
def pymod (a b : ℝ) : ℝ := a - b * ⌊a / b⌋

/-- Embedding of the simplified Greenwich Mean Sidereal Time computation
`(4.894961212823756 + omega_earth * seconds_since_j2000) % (2 * pi)`
(orbital_propagation.py line 136).  `t` is seconds since J2000.0. -/
def gmst_rad (t : ℝ) : ℝ := pymod (theta0 + omega_earth * t) (2 * Real.pi)

/-- Embedding of `lon_deg = math.degrees(math.atan2(y, x) - gmst_rad)`
(orbital_propagation.py lines 139-142), before normalization. -/
def lonDegRaw (x y t : ℝ) : ℝ := (atan2 y x - gmst_rad t) * (180 / Real.pi)

/-- Embedding of the longitude normalization (orbital_propagation.py lines
143-146): subtract 360 if above 180, else add 360 if below -180. -/
def normalizeLon (d : ℝ) : ℝ :=
  if d > 180 then d - 360 else if d < -180 then d + 360 else d

/-- Earth equatorial radius in km (orbital_propagation.py line 155). -/
def r_earth : ℝ := 6378.137

/-- Embedding of `OrbitalPropagator.eci_to_geodetic` (orbital_propagation.py
lines 112-159), returning `(latitude_deg, longitude_deg, altitude_km)`.
`t` is seconds since J2000.0 (the code derives it from the `dt` argument). -/
def eci_to_geodetic (x y z t : ℝ) : ℝ × ℝ × ℝ :=
  (atan2 z (Real.sqrt (x ^ 2 + y ^ 2)) * (180 / Real.pi),
   normalizeLon (lonDegRaw x y t),
   Real.sqrt (x ^ 2 + y ^ 2 + z ^ 2) - r_earth)

/-- Seconds-since-J2000 instant at which the sidereal angle is exactly `π`. -/
def tStar : ℝ := (Real.pi - theta0) / omega_earth

end

/-- Longitude jump between consecutive points small enough to stay in one
segment: the negation of the break condition. -/
def smallJump (p q : ℚ × ℚ) : Prop := |q.1 - p.1| ≤ 180

/-- Relation between consecutive emitted segments: the longitude jump from
the end of one to the start of the next exceeds 180. -/
def breakJump (s u : List (ℚ × ℚ)) : Prop :=
  ∀ x ∈ s.getLast?, ∀ y ∈ u.head?, |y.1 - x.1| > 180

lemma segmentsAux_flatten (rest : List (ℚ × ℚ)) :
    ∀ (prevLon : ℚ) (cur : List (ℚ × ℚ)),
      (segmentsAux prevLon cur rest).flatten = cur ++ rest := by
  induction rest with
  | nil => intro p c; simp [segmentsAux]
  | cons q rs ih =>
    intro p c
    simp only [segmentsAux]
    split
    · simp [ih]
    · simp [ih]

lemma segmentsAux_ne_nil (rest : List (ℚ × ℚ)) :
    ∀ (prevLon : ℚ) (cur : List (ℚ × ℚ)), cur ≠ [] →
      ∀ s ∈ segmentsAux prevLon cur rest, s ≠ [] := by
  induction rest with
  | nil =>
    intro p c hc s hs
    simp [segmentsAux] at hs
    exact hs ▸ hc
  | cons q rs ih =>
    intro p c hc s hs
    simp only [segmentsAux] at hs
    split at hs
    · rcases List.mem_cons.mp hs with h | h
      · exact h ▸ hc
      · exact ih q.1 [q] (by simp) s h
    · exact ih q.1 (c ++ [q]) (by simp) s hs

lemma segmentTrack_flatten (pts : List (ℚ × ℚ)) : (segmentTrack pts).flatten = pts := by
  cases pts with
  | nil => rfl
  | cons p rest => simp [segmentTrack, segmentsAux_flatten]

lemma segmentTrack_ne_nil (pts : List (ℚ × ℚ)) :
    ∀ s ∈ segmentTrack pts, s ≠ [] := by
  cases pts with
  | nil => simp [segmentTrack]
  | cons p rest => exact segmentsAux_ne_nil rest p.1 [p] (by simp)

lemma segmentsAux_first (rest : List (ℚ × ℚ)) :
    ∀ (prevLon : ℚ) (cur : List (ℚ × ℚ)),
      ∃ t l, segmentsAux prevLon cur rest = (cur ++ t) :: l := by
  induction rest with
  | nil => intro p c; exact ⟨[], [], by simp [segmentsAux]⟩
  | cons q rs ih =>
    intro p c
    simp only [segmentsAux]
    split
    · exact ⟨[], segmentsAux q.1 [q] rs, by simp⟩
    · obtain ⟨t, l, h⟩ := ih q.1 (c ++ [q])
      exact ⟨[q] ++ t, l, by simpa using h⟩

lemma segmentsAux_inner (rest : List (ℚ × ℚ)) :
    ∀ (prevLon : ℚ) (cur : List (ℚ × ℚ)),
      List.Chain' smallJump cur → (∀ x ∈ cur.getLast?, x.1 = prevLon) →
      ∀ s ∈ segmentsAux prevLon cur rest, List.Chain' smallJump s := by
  induction rest with
  | nil =>
    intro p c hc _ s hs
    simp [segmentsAux] at hs
    exact hs ▸ hc
  | cons q rs ih =>
    intro p c hc hlast s hs
    simp only [segmentsAux] at hs
    split at hs
    · rcases List.mem_cons.mp hs with h | h
      · exact h ▸ hc
      · exact ih q.1 [q] (by simp) (by simp) s h
    · rename_i hbig
      refine ih q.1 (c ++ [q]) ?_ (by simp) s hs
      rw [List.chain'_append]
      refine ⟨hc, by simp, ?_⟩
      intro x hx y hy
      simp at hy
      subst hy
      have hx1 := hlast x hx
      simpa [smallJump, hx1] using le_of_not_lt hbig

lemma segmentsAux_break (rest : List (ℚ × ℚ)) :
    ∀ (prevLon : ℚ) (cur : List (ℚ × ℚ)),
      (∀ x ∈ cur.getLast?, x.1 = prevLon) →
      List.Chain' breakJump (segmentsAux prevLon cur rest) := by
  induction rest with
  | nil => intro p c _; simp [segmentsAux]
  | cons q rs ih =>
    intro p c hlast
    simp only [segmentsAux]
    split
    · rename_i hbig
      rw [List.chain'_cons']
      refine ⟨?_, ih q.1 [q] (by simp)⟩
      intro u hu x hx y hy
      obtain ⟨t, l, hfirst⟩ := segmentsAux_first rs q.1 [q]
      rw [hfirst] at hu
      simp at hu
      subst hu
      simp at hy
      subst hy
      have hx1 := hlast x hx
      rw [hx1]
      exact hbig
    · exact ih q.1 (c ++ [q]) (by simp)

lemma runLoop_eq_filter {α : Type} (prop : ℚ → ℤ × α) (epochs : List ℚ) :
    runLoop prop epochs =
      (epochs.filter (fun e => (prop e).1 == 0)).map (fun e => (e, (prop e).2)) := by
  induction epochs with
  | nil => rfl
  | cons e es ih =>
    rw [runLoop]
    by_cases h : (prop e).1 = 0
    · rw [if_neg (by simp [h]), List.filter_cons_of_pos (by simp [h]),
        List.map_cons, ih]
    · rw [if_pos (by simp [h]), List.filter_cons_of_neg (by simp [h]), ih]

lemma length_filter_split (l : List ℚ) (p : ℚ → Bool) :
    (l.filter p).length + (l.filter (fun e => !(p e))).length = l.length := by
  induction l with
  | nil => rfl
  | cons a t ih =>
    by_cases h : p a <;> simp [List.filter_cons, h] <;> omega

lemma runLoop_fst_sublist {α : Type} (prop : ℚ → ℤ × α) (epochs : List ℚ) :
    List.Sublist ((runLoop prop epochs).map Prod.fst) epochs := by
  rw [runLoop_eq_filter, List.map_map]
  have hcomp : (Prod.fst ∘ fun e => (e, (prop e).2)) = fun e : ℚ => e := rfl
  rw [hcomp, List.map_id']
  exact List.filter_sublist epochs

lemma runLoop_single_le {α : Type} (prop : ℚ → ℤ × α) (e : ℚ) :
    (runLoop prop [e]).length ≤ 1 := by
  rw [runLoop]
  split <;> simp [runLoop]

lemma slicesAux_of_le {α : Type} (res : List α) (ppo : ℕ) :
    ∀ (b k : ℕ), (k + b) * ppo ≤ res.length →
      slicesAux res ppo k b =
        (List.range b).map (fun j => (res.drop ((k + j) * ppo)).take ppo) := by
  intro b
  induction b with
  | zero => intro k _; simp [slicesAux]
  | succ b ih =>
    intro k h
    have hk1 : (k + 1) * ppo ≤ res.length :=
      le_trans (Nat.mul_le_mul_right ppo (by omega)) h
    rw [slicesAux, if_neg (by omega)]
    have ih2 := ih (k + 1) (by rw [show k + 1 + b = k + (b + 1) by omega]; exact h)
    rw [ih2, List.range_succ_eq_map]
    simp only [List.map_cons, List.map_map]
    congr 1
    apply List.map_congr_left
    intro a ha
    simp only [Function.comp_apply]
    rw [show k + 1 + a = k + (a + 1) by omega]

lemma slicesAux_eq {α : Type} (res : List α) (ppo : ℕ) (hp : 0 < ppo) :
    ∀ (b k : ℕ), slicesAux res ppo k b =
      (List.range (min b (res.length / ppo - k))).map
        (fun j => (res.drop ((k + j) * ppo)).take ppo) := by
  intro b
  induction b with
  | zero => intro k; simp [slicesAux]
  | succ b ih =>
    intro k
    by_cases hk : res.length < (k + 1) * ppo
    · rw [slicesAux, if_pos hk]
      have hdiv : res.length / ppo ≤ k := by
        have h2 : res.length / ppo < k + 1 := (Nat.div_lt_iff_lt_mul hp).mpr hk
        omega
      rw [show min (b + 1) (res.length / ppo - k) = 0 by omega]
      simp
    · rw [slicesAux, if_neg hk]
      have hk2 : k + 1 ≤ res.length / ppo := by
        rw [Nat.le_div_iff_mul_le hp]
        exact le_of_not_lt hk
      rw [ih (k + 1)]
      rw [show min (b + 1) (res.length / ppo - k) = min b (res.length / ppo - (k + 1)) + 1
        by omega]
      rw [List.range_succ_eq_map]
      simp only [List.map_cons, List.map_map]
      congr 1
      apply List.map_congr_left
      intro a ha
      simp only [Function.comp_apply]
      rw [show k + 1 + a = k + (a + 1) by omega]

lemma orbitSlices_eq {α : Type} (res : List α) (numOrbits ppo : ℕ) (hp : 0 < ppo) :
    orbitSlices res numOrbits ppo =
      (List.range (min (min numOrbits 5) (res.length / ppo))).map
        (fun k => (res.drop (k * ppo)).take ppo) := by
  unfold orbitSlices
  rw [slicesAux_eq res ppo hp (min numOrbits 5) 0]
  simp

lemma orbitSlices_mem_length {α : Type} (res : List α) (numOrbits ppo : ℕ)
    (hp : 0 < ppo) : ∀ s ∈ orbitSlices res numOrbits ppo, s.length = ppo := by
  rw [orbitSlices_eq res numOrbits ppo hp]
  intro s hs
  rw [List.mem_map] at hs
  obtain ⟨k, hk, rfl⟩ := hs
  rw [List.mem_range] at hk
  have hk2 : (k + 1) * ppo ≤ res.length := by
    rw [← Nat.le_div_iff_mul_le hp]
    omega
  rw [Nat.succ_mul] at hk2
  simp only [List.length_take, List.length_drop]
  omega

lemma slicesAux_nil_zero {α : Type} :
    ∀ (b k : ℕ), slicesAux ([] : List α) 0 k b = List.replicate b [] := by
  intro b
  induction b with
  | zero => intro k; rfl
  | succ b ih =>
    intro k
    rw [slicesAux, if_neg (by simp)]
    simp [ih, List.replicate_succ]

lemma times5_length (n : ℕ) : (times5 n).length = n := by simp [times5]

lemma times5_head (n : ℕ) (h : 0 < n) : (times5 n).head?.getD 0 = 0 := by
  obtain ⟨m, rfl⟩ : ∃ m, n = m + 1 := ⟨n - 1, by omega⟩
  simp [times5, List.range_succ_eq_map]

lemma times5_getLast (n : ℕ) (h : 0 < n) :
    (times5 n).getLast?.getD 0 = 5 * ((n : ℚ) - 1) := by
  obtain ⟨m, rfl⟩ : ∃ m, n = m + 1 := ⟨n - 1, by omega⟩
  rw [times5, List.range_succ, List.map_append]
  simp [List.getLast?_concat]
  ring

lemma codeTimeStep_times5 (n : ℕ) (h : 0 < n) :
    codeTimeStep (times5 n) = 5 * ((n : ℚ) - 1) / n := by
  rw [codeTimeStep, times5_head n h, times5_getLast n h, times5_length]
  ring_nf

lemma codePpoE_times5 (n : ℕ) (h : 20 ≤ n) : codePpoE (times5 n) 3 = Except.ok 18 := by
  have hn0 : 0 < n := by omega
  have hn : (20 : ℚ) ≤ (n : ℚ) := by exact_mod_cast h
  have hts := codeTimeStep_times5 n hn0
  have hnum : (0 : ℚ) < 5 * ((n : ℚ) - 1) := by linarith
  have hden : (0 : ℚ) < (n : ℚ) := by linarith
  have htsne : codeTimeStep (times5 n) ≠ 0 := by
    rw [hts]
    exact ne_of_gt (div_pos hnum hden)
  rw [codePpoE, if_pos (by rw [times5_length]; omega), if_neg (by simpa using htsne)]
  have hq : 90 / codeTimeStep (times5 n) = 90 * (n : ℚ) / (5 * ((n : ℚ) - 1)) := by
    rw [hts, div_div_eq_mul_div]
  have hqpos : 0 ≤ 90 / codeTimeStep (times5 n) := by
    rw [hq]
    positivity
  rw [pyInt, if_pos hqpos, hq]
  have hfl : ⌊90 * (n : ℚ) / (5 * ((n : ℚ) - 1))⌋ = 18 := by
    rw [Int.floor_eq_iff]
    constructor
    · rw [le_div_iff₀ hnum]
      push_cast
      linarith
    · rw [div_lt_iff₀ hnum]
      push_cast
      linarith
  rw [hfl]

lemma pymod_nonneg (a : ℝ) {b : ℝ} (hb : 0 < b) : 0 ≤ pymod a b := by
  rw [pymod, sub_nonneg]
  calc b * ⌊a / b⌋ ≤ b * (a / b) :=
        mul_le_mul_of_nonneg_left (Int.floor_le (a / b)) hb.le
    _ = a := by field_simp

lemma pymod_lt (a : ℝ) {b : ℝ} (hb : 0 < b) : pymod a b < b := by
  rw [pymod, sub_lt_iff_lt_add]
  have h := Int.lt_floor_add_one (a / b)
  have h2 : a < (⌊a / b⌋ + 1) * b := by
    rw [← div_lt_iff₀ hb]
    linarith
  nlinarith

lemma gmst_nonneg (t : ℝ) : 0 ≤ gmst_rad t :=
  pymod_nonneg _ Real.two_pi_pos

lemma gmst_lt (t : ℝ) : gmst_rad t < 2 * Real.pi :=
  pymod_lt _ Real.two_pi_pos

lemma atan2_le_pi (y x : ℝ) : atan2 y x ≤ Real.pi := Complex.arg_le_pi _

lemma neg_pi_lt_atan2 (y x : ℝ) : -Real.pi < atan2 y x := Complex.neg_pi_lt_arg _

lemma lonDegRaw_le (x y t : ℝ) : lonDegRaw x y t ≤ 180 := by
  have h1 : atan2 y x - gmst_rad t ≤ Real.pi := by
    have := atan2_le_pi y x
    have := gmst_nonneg t
    linarith
  have hpos : (0 : ℝ) ≤ 180 / Real.pi := by positivity
  calc lonDegRaw x y t = (atan2 y x - gmst_rad t) * (180 / Real.pi) := rfl
    _ ≤ Real.pi * (180 / Real.pi) := mul_le_mul_of_nonneg_right h1 hpos
    _ = 180 := by field_simp

lemma lonDegRaw_gt (x y t : ℝ) : -540 < lonDegRaw x y t := by
  have h1 : -(3 * Real.pi) < atan2 y x - gmst_rad t := by
    have := neg_pi_lt_atan2 y x
    have := gmst_lt t
    linarith
  have hpos : (0 : ℝ) < 180 / Real.pi := by positivity
  have h2 : -(3 * Real.pi) * (180 / Real.pi) < lonDegRaw x y t :=
    mul_lt_mul_of_pos_right h1 hpos
  have h3 : -(3 * Real.pi) * (180 / Real.pi) = -540 := by
    field_simp
    ring
  linarith

lemma normalizeLon_of_le (d : ℝ) (hle : d ≤ 180) :
    normalizeLon d = if d < -180 then d + 360 else d := by
  rw [normalizeLon, if_neg (by linarith : ¬ d > 180)]

lemma normalizeLon_mem (d : ℝ) (hgt : -540 < d) (hle : d ≤ 180) :
    normalizeLon d ∈ Set.Icc (-180 : ℝ) 180 := by
  rw [normalizeLon_of_le d hle]
  split_ifs with h
  · exact ⟨by linarith, by linarith⟩
  · push_neg at h
    exact ⟨by linarith, hle⟩

lemma atan2_zero_one : atan2 0 1 = 0 := by
  rw [atan2, show (⟨1, 0⟩ : ℂ) = 1 from Complex.ext (by simp) (by simp), Complex.arg_one]

lemma omega_ne : omega_earth ≠ 0 := by norm_num [omega_earth]

lemma gmst_tStar : gmst_rad tStar = Real.pi := by
  rw [gmst_rad, tStar, pymod]
  have harg : theta0 + omega_earth * ((Real.pi - theta0) / omega_earth) = Real.pi := by
    field_simp [omega_ne]
  rw [harg]
  have hdiv : Real.pi / (2 * Real.pi) = 1 / 2 := by
    rw [div_eq_div_iff (by positivity) (by norm_num : (2 : ℝ) ≠ 0)]
    ring
  rw [hdiv]
  norm_num

lemma lonDegRaw_at_tStar : lonDegRaw 1 0 tStar = -180 := by
  rw [lonDegRaw, atan2_zero_one, gmst_tStar]
  field_simp
  ring

/-- Claim C1, counterexample: at the nonzero input `(x, y) = (1, 0)` and the
epoch `tStar` (where the sidereal angle is exactly `π`), the transform's
longitude output is exactly `-180`, which is outside the claimed interval
`(-180, 180]`. -/
theorem claim_C1_cex :
    ((1 : ℝ), (0 : ℝ)) ≠ ((0 : ℝ), (0 : ℝ)) ∧
    (eci_to_geodetic 1 0 0 tStar).2.1 = -180 ∧
    (eci_to_geodetic 1 0 0 tStar).2.1 ∉ Set.Ioc (-180 : ℝ) 180 := by
  have hlon : (eci_to_geodetic 1 0 0 tStar).2.1 = -180 := by
    show normalizeLon (lonDegRaw 1 0 tStar) = -180
    rw [lonDegRaw_at_tStar, normalizeLon]
    norm_num
  refine ⟨by norm_num, hlon, ?_⟩
  rw [hlon]
  simp

/-- Claim C1, amended: for every finite nonzero `(x, y)` input and every
epoch, the raw longitude before normalization lies in `(-540, 180]`, so the
subtract-360 branch never fires and a single additive wrap suffices; the
normalized longitude lies in the closed interval `[-180, 180]` (with `-180`
attainable, see the counterexample), not in `(-180, 180]`. -/
theorem claim_C1_amended (x y z t : ℝ) (_hxy : (x, y) ≠ ((0 : ℝ), (0 : ℝ))) :
    lonDegRaw x y t ∈ Set.Ioc (-540 : ℝ) 180 ∧
    (eci_to_geodetic x y z t).2.1 =
      (if lonDegRaw x y t < -180 then lonDegRaw x y t + 360 else lonDegRaw x y t) ∧
    (eci_to_geodetic x y z t).2.1 ∈ Set.Icc (-180 : ℝ) 180 := by
  have h1 := lonDegRaw_gt x y t
  have h2 := lonDegRaw_le x y t
  refine ⟨⟨h1, h2⟩, ?_, ?_⟩
  · show normalizeLon (lonDegRaw x y t) = _
    exact normalizeLon_of_le _ h2
  · exact normalizeLon_mem _ h1 h2

/-- Claim C1, witness: the amended theorem instantiated at the concrete
nonzero input `(1, 0)` with epoch `0`. -/
theorem claim_C1_witness :
    ((1 : ℝ), (0 : ℝ)) ≠ ((0 : ℝ), (0 : ℝ)) ∧
    lonDegRaw 1 0 0 ∈ Set.Ioc (-540 : ℝ) 180 :=
  ⟨by norm_num, (claim_C1_amended 1 0 0 0 (by norm_num)).1⟩

/-- Claim C2, counterexample: for two samples at minutes 0 and 5, the code's
mean time step is `5/2` (it divides the span by the count, not count - 1,
contrary to the claim's `(5 - 0)/(2 - 1) = 5`), and the code's
points-per-orbit is `36 = int(90 / (5/2))`, not `floor(92.7 / 5) = 18`;
moreover a single sample raises `ZeroDivisionError` instead of using the
claimed count < 2 fallback. -/
theorem claim_C2_cex :
    codeTimeStep [0, 5] = 5 / 2 ∧ ((5 : ℚ) - 0) / (2 - 1) = 5 ∧ (5 / 2 : ℚ) ≠ 5 ∧
    codePpoE [0, 5] 3 = Except.ok 36 ∧ ⌊(92.7 : ℚ) / 5⌋ = 18 ∧ (36 : ℤ) ≠ 18 ∧
    codePpoE [(0 : ℚ)] 3 = Except.error "ZeroDivisionError" := by
  have hts : codeTimeStep [0, 5] = 5 / 2 := by
    norm_num [codeTimeStep, List.getLast?_cons_cons, List.getLast?_singleton]
  have hppo : codePpoE [0, 5] 3 = Except.ok 36 := by
    rw [codePpoE, if_pos (by norm_num), if_neg (by rw [hts]; norm_num), hts]
    norm_num [pyInt]
  have hone : codePpoE [(0 : ℚ)] 3 = Except.error "ZeroDivisionError" := by
    have h0 : codeTimeStep [(0 : ℚ)] = 0 := by
      simp [codeTimeStep]
    rw [codePpoE, if_pos (by norm_num), if_pos h0]
  refine ⟨hts, by norm_num, by norm_num, hppo, by norm_num, by norm_num, hone⟩

/-- Claim C2, amended: the code divides the time span by the sample count
(not count - 1) and uses a hard-coded 90-minute period (not the 92.7-minute
estimate), falling back only for an empty sample list; nevertheless, on a
5-minute grid the computed points-per-orbit is 18 for every count of at least
20, so at least 54 samples yield exactly 3 slices of 18 samples each and
40 samples yield exactly 2 full slices of 18. -/
theorem claim_C2_amended :
    (∀ n : ℕ, 54 ≤ n →
      codePpoE (times5 n) 3 = Except.ok 18 ∧
      (orbitSlices (times5 n) 3 18).length = 3 ∧
      ∀ s ∈ orbitSlices (times5 n) 3 18, s.length = 18) ∧
    (codePpoE (times5 40) 3 = Except.ok 18 ∧
      (orbitSlices (times5 40) 3 18).length = 2 ∧
      ∀ s ∈ orbitSlices (times5 40) 3 18, s.length = 18) ∧
    codeTimeStep [0, 5] = 5 / 2 ∧ codePpoE [0, 5] 3 = Except.ok 36 := by
  refine ⟨?_, ⟨?_, ?_, ?_⟩, ?_, ?_⟩
  · intro n hn
    refine ⟨codePpoE_times5 n (by omega), ?_, orbitSlices_mem_length _ _ _ (by norm_num)⟩
    rw [orbitSlices_eq _ _ _ (by norm_num : (0 : ℕ) < 18)]
    rw [List.length_map, List.length_range, times5_length]
    have h3 : 3 ≤ n / 18 := (Nat.le_div_iff_mul_le (by norm_num)).mpr (by omega)
    omega
  · exact codePpoE_times5 40 (by norm_num)
  · rw [orbitSlices_eq _ _ _ (by norm_num : (0 : ℕ) < 18)]
    rw [List.length_map, List.length_range, times5_length]
    norm_num
  · exact orbitSlices_mem_length _ _ _ (by norm_num)
  · norm_num [codeTimeStep, List.getLast?_cons_cons, List.getLast?_singleton]
  · have hts : codeTimeStep [0, 5] = 5 / 2 := by
      norm_num [codeTimeStep, List.getLast?_cons_cons, List.getLast?_singleton]
    rw [codePpoE, if_pos (by norm_num), if_neg (by rw [hts]; norm_num), hts]
    norm_num [pyInt]

/-- Claim C2, witness: the amended scenario instantiated at exactly 54
samples on the 5-minute grid. -/
theorem claim_C2_witness : codePpoE (times5 54) 3 = Except.ok 18 :=
  (claim_C2_amended.1 54 (by norm_num)).1

/-- Claim C3: the segmenter breaks between adjacent samples exactly when the
absolute longitude jump exceeds 180: every emitted segment has all internal
jumps at most 180, consecutive segments are separated by a jump above 180,
a two-sample input splits precisely according to the jump test, longitudes
179.9 and -179.9 give two segments, and -10 and 10 give one. -/
theorem claim_C3 :
    (∀ pts : List (ℚ × ℚ),
      (∀ s ∈ segmentTrack pts, List.Chain' smallJump s) ∧
      List.Chain' breakJump (segmentTrack pts)) ∧
    (∀ a b : ℚ × ℚ,
      segmentTrack [a, b] = if |b.1 - a.1| > 180 then [[a], [b]] else [[a, b]]) ∧
    segmentTrack [(179.9, 0), (-179.9, 0)] = [[(179.9, 0)], [(-179.9, 0)]] ∧
    segmentTrack [(-10, 0), (10, 0)] = [[(-10, 0), (10, 0)]] := by
  refine ⟨?_, ?_, ?_, ?_⟩
  · intro pts
    cases pts with
    | nil => simp [segmentTrack]
    | cons p rest =>
      exact ⟨segmentsAux_inner rest p.1 [p] (by simp) (by simp),
        segmentsAux_break rest p.1 [p] (by simp)⟩
  · intro a b
    simp only [segmentTrack, segmentsAux]
    split_ifs <;> rfl
  · norm_num [segmentTrack, segmentsAux, abs_of_nonpos, abs_of_nonneg]
  · norm_num [segmentTrack, segmentsAux, abs_of_nonpos, abs_of_nonneg]

/-- Claim C3, witness: the segment produced from the non-crossing pair
satisfies the internal small-jump invariant. -/
theorem claim_C3_witness :
    List.Chain' smallJump [((-10 : ℚ), (0 : ℚ)), ((10 : ℚ), (0 : ℚ))] :=
  (claim_C3.1 [((-10 : ℚ), (0 : ℚ)), ((10 : ℚ), (0 : ℚ))]).1
    [((-10 : ℚ), (0 : ℚ)), ((10 : ℚ), (0 : ℚ))]
    (by rw [claim_C3.2.2.2]; exact List.mem_singleton_self _)

/-- Claim C4: when the propagator reports a non-success status the loop skips
that sample and continues: over any 10 requested epochs of which exactly 2
fail, the output has length exactly 8 and equals the successful epochs, in
original relative order. -/
theorem claim_C4 {α : Type} (prop : ℚ → ℤ × α) (epochs : List ℚ)
    (hlen : epochs.length = 10)
    (hfail : (epochs.filter (fun e => (prop e).1 != 0)).length = 2) :
    (runLoop prop epochs).length = 8 ∧
    runLoop prop epochs =
      (epochs.filter (fun e => (prop e).1 == 0)).map (fun e => (e, (prop e).2)) := by
  refine ⟨?_, runLoop_eq_filter prop epochs⟩
  rw [runLoop_eq_filter, List.length_map]
  have hsplit := length_filter_split epochs (fun e => (prop e).1 == 0)
  have hfail2 : (epochs.filter (fun e => !((prop e).1 == 0))).length = 2 := hfail
  omega

/-- Claim C4, witness: a concrete propagator failing exactly at epochs 3 and
7 of the 10 epochs 0..9 yields exactly 8 samples. -/
theorem claim_C4_witness :
    (runLoop (fun e => (if e = 3 ∨ e = 7 then (1 : ℤ) else 0, e))
      [0, 1, 2, 3, 4, 5, 6, 7, 8, 9]).length = 8 :=
  (claim_C4 (fun e => (if e = 3 ∨ e = 7 then (1 : ℤ) else 0, e))
    [0, 1, 2, 3, 4, 5, 6, 7, 8, 9] (by norm_num)
    (by norm_num [List.filter]; decide)).1

/-- Claim C5, counterexample: a negative time step (step -10 with duration 24
hours) does not raise; the step count is -144, the epoch range is empty, and
the loop silently returns an empty result. -/
theorem claim_C5_cex :
    propagateMultipleE (fun _ => ((0 : ℤ), (0 : ℕ))) 0 24 (-10) = Except.ok [] := by
  have h1 : numStepsE 24 (-10) = Except.ok (-144) := by
    rw [numStepsE, if_neg (by norm_num)]
    norm_num [pyInt]
  rw [propagateMultipleE, h1]
  show Except.ok (runLoop _ (epochListOf 0 (-10) (-144))) = Except.ok []
  rw [epochListOf]
  norm_num
  rfl

/-- Claim C5, amended: only a zero time step is fatal (ZeroDivisionError from
the step-count division, before the propagator is ever consulted); any
nonzero step, including negative ones, produces an ordinary result
(for negative steps an empty or single-sample one, with no error). -/
theorem claim_C5_amended {α : Type} (prop : ℚ → ℤ × α) (start d s : ℚ) :
    (s = 0 → propagateMultipleE prop start d s = Except.error "ZeroDivisionError") ∧
    (s ≠ 0 → propagateMultipleE prop start d s =
      Except.ok (runLoop prop (epochListOf start s (pyInt (d * 60 / s))))) := by
  constructor
  · rintro rfl
    rw [propagateMultipleE, numStepsE, if_pos rfl]
    rfl
  · intro h
    rw [propagateMultipleE, numStepsE, if_neg h]
    rfl

/-- Claim C5, witness: the amended theorem at step 0 (fatal) and at the
negative step -10 (non-fatal). -/
theorem claim_C5_witness :
    propagateMultipleE (fun _ => ((0 : ℤ), (0 : ℕ))) 0 24 0 =
      Except.error "ZeroDivisionError" ∧
    propagateMultipleE (fun _ => ((0 : ℤ), (0 : ℕ))) 0 24 (-10) =
      Except.ok (runLoop (fun _ => ((0 : ℤ), (0 : ℕ)))
        (epochListOf 0 (-10) (pyInt (24 * 60 / (-10))))) :=
  ⟨(claim_C5_amended (fun _ => ((0 : ℤ), (0 : ℕ))) 0 24 0).1 rfl,
   (claim_C5_amended (fun _ => ((0 : ℤ), (0 : ℕ))) 0 24 (-10)).2 (by norm_num)⟩

/-- Claim C6: for positive step and non-negative duration the loop generates
exactly `floor(duration/step) + 1` target epochs `start + i*step`, the output
is the in-order sublist of successful epochs, and duration 0 yields exactly
one target epoch and at most one sample. -/
theorem claim_C6 {α : Type} (prop : ℚ → ℤ × α) (start d s : ℚ)
    (hs : 0 < s) (hd : 0 ≤ d) :
    numStepsE d s = Except.ok ⌊d * 60 / s⌋ ∧
    epochListOf start s ⌊d * 60 / s⌋ =
      (List.range (⌊d * 60 / s⌋.toNat + 1)).map (fun (i : ℕ) => start + (i : ℚ) * s) ∧
    (epochListOf start s ⌊d * 60 / s⌋).length = ⌊d * 60 / s⌋.toNat + 1 ∧
    propagateMultipleE prop start d s =
      Except.ok (runLoop prop (epochListOf start s ⌊d * 60 / s⌋)) ∧
    List.Sublist ((runLoop prop (epochListOf start s ⌊d * 60 / s⌋)).map Prod.fst)
      (epochListOf start s ⌊d * 60 / s⌋) ∧
    (d = 0 → epochListOf start s ⌊d * 60 / s⌋ = [start] ∧
      (runLoop prop (epochListOf start s ⌊d * 60 / s⌋)).length ≤ 1) := by
  have hq : 0 ≤ d * 60 / s := by positivity
  have hfl : 0 ≤ ⌊d * 60 / s⌋ := Int.floor_nonneg.mpr hq
  have h1 : numStepsE d s = Except.ok ⌊d * 60 / s⌋ := by
    rw [numStepsE, if_neg (ne_of_gt hs), pyInt, if_pos hq]
  have htn : (⌊d * 60 / s⌋ + 1).toNat = ⌊d * 60 / s⌋.toNat + 1 := by omega
  have h2 : epochListOf start s ⌊d * 60 / s⌋ =
      (List.range (⌊d * 60 / s⌋.toNat + 1)).map (fun (i : ℕ) => start + (i : ℚ) * s) := by
    rw [epochListOf, htn]
  refine ⟨h1, h2, ?_, ?_, runLoop_fst_sublist prop _, ?_⟩
  · rw [h2, List.length_map, List.length_range]
  · rw [propagateMultipleE, h1]
    rfl
  · rintro rfl
    have hz : ⌊(0 : ℚ) * 60 / s⌋ = 0 := by norm_num
    have hone : epochListOf start s ⌊(0 : ℚ) * 60 / s⌋ = [start] := by
      rw [hz, epochListOf]
      simp [List.range_succ]
    exact ⟨hone, hone ▸ runLoop_single_le prop start⟩

/-- Claim C6, witness: the theorem at duration 0 and step 10. -/
theorem claim_C6_witness : numStepsE 0 10 = Except.ok ⌊(0 : ℚ) * 60 / 10⌋ :=
  (claim_C6 (fun _ => ((0 : ℤ), (0 : ℕ))) 0 0 10 (by norm_num) le_rfl).1

/-- Claim C7: every emitted track segment is non-empty, the concatenation of
the segments is exactly the input sample list (so the point counts sum to the
input length and each sample appears exactly once, in order, with no segment
discarded), and a single-sample input yields one single-point segment. -/
theorem claim_C7 (pts : List (ℚ × ℚ)) :
    (∀ s ∈ segmentTrack pts, s ≠ []) ∧
    (segmentTrack pts).flatten = pts ∧
    ((segmentTrack pts).map List.length).sum = pts.length ∧
    ∀ p : ℚ × ℚ, segmentTrack [p] = [[p]] := by
  refine ⟨segmentTrack_ne_nil pts, segmentTrack_flatten pts, ?_, fun p => rfl⟩
  rw [← List.length_flatten, segmentTrack_flatten]

/-- Claim C7, witness: the non-emptiness conjunct at a concrete single-sample
input. -/
theorem claim_C7_witness : [((0 : ℚ), (0 : ℚ))] ≠ ([] : List (ℚ × ℚ)) :=
  (claim_C7 [((0 : ℚ), (0 : ℚ))]).1 [((0 : ℚ), (0 : ℚ))]
    (by simp [segmentTrack, segmentsAux])

/-- Claim C8, counterexample: on empty input with the resulting
points-per-orbit 0, the partitioner emits three empty slices, not an empty
result. -/
theorem claim_C8_cex :
    orbitSlices ([] : List ℚ) 3 0 = [[], [], []] ∧
    ([[], [], []] : List (List ℚ)) ≠ ([] : List (List ℚ)) :=
  ⟨rfl, by simp⟩

/-- Claim C8, amended: for positive points-per-orbit the partitioner emits
the contiguous slices `samples[k*ppo : (k+1)*ppo)` for consecutive
`k < min(orbit_count, 5)` (the color list caps the loop at 5), stopping as
soon as the upper bound would exceed the sample count, and every emitted
slice has exactly `ppo` samples; the segmenter returns an empty result on
empty input, while the partitioner on empty input (where `ppo = 0`) emits
`min(orbit_count, 5)` empty slices instead of an empty result. -/
theorem claim_C8_amended :
    (∀ (res : List ℚ) (numOrbits ppo : ℕ), 0 < ppo →
      orbitSlices res numOrbits ppo =
        (List.range (min (min numOrbits 5) (res.length / ppo))).map
          (fun k => (res.drop (k * ppo)).take ppo) ∧
      ∀ s ∈ orbitSlices res numOrbits ppo, s.length = ppo) ∧
    segmentTrack [] = [] ∧
    ∀ numOrbits : ℕ,
      orbitSlices ([] : List ℚ) numOrbits 0 = List.replicate (min numOrbits 5) [] :=
  ⟨fun res numOrbits ppo hp =>
    ⟨orbitSlices_eq res numOrbits ppo hp, orbitSlices_mem_length res numOrbits ppo hp⟩,
   rfl, fun numOrbits => slicesAux_nil_zero (min numOrbits 5) 0⟩

/-- Claim C8, witness: the amended characterization at a one-sample list with
points-per-orbit 1. -/
theorem claim_C8_witness :
    orbitSlices [(0 : ℚ)] 3 1 =
      (List.range (min (min 3 5) ([(0 : ℚ)].length / 1))).map
        (fun k => (([(0 : ℚ)]).drop (k * 1)).take 1) :=
  (claim_C8_amended.1 [(0 : ℚ)] 3 1 (by norm_num)).1

/-- Claim C9: the altitude output of the coordinate transform is
`sqrt(x^2 + y^2 + z^2) - 6378.137` and is independent of the epoch
argument. -/
theorem claim_C9 (x y z t : ℝ) :
    (eci_to_geodetic x y z t).2.2 = Real.sqrt (x ^ 2 + y ^ 2 + z ^ 2) - 6378.137 ∧
    ∀ s : ℝ, (eci_to_geodetic x y z t).2.2 = (eci_to_geodetic x y z s).2.2 :=
  ⟨rfl, fun _ => rfl⟩

/-- Claim C10: `get_current_position` always fails with a division by zero:
it calls the propagation loop with a zero time step, and the step-count
division fails before any propagation is attempted (the error arises in
`numStepsE`, which never consults the propagator). -/
theorem claim_C10 {α : Type} (prop : ℚ → ℤ × α) (now : ℚ) :
    getCurrentPosition prop now = Except.error "ZeroDivisionError" ∧
    propagateMultipleE prop now 0 0 = Except.error "ZeroDivisionError" ∧
    numStepsE 0 0 = Except.error "ZeroDivisionError" := by
  have h : numStepsE 0 0 = Except.error "ZeroDivisionError" := by
    rw [numStepsE, if_pos rfl]
  exact ⟨by rw [getCurrentPosition, propagateMultipleE, h]; rfl,
    by rw [propagateMultipleE, h]; rfl, h⟩

